import Mathlib

/-!
Verification of the trace-reconstruction engine and the IR passes of the
tracy-mc-traceface repository, shallowly embedded from the Python sources
(src/tracer.py, src/diamond_pruning_pass.py, src/inlining.py).

Conventions of the embedding:
* Python runtime values appearing in traces are modelled by `Lit`.  Python
  floats only ever reach string form through `f"{val:.4f}"` (four fixed
  decimal digits), so a float is modelled exactly as an integer count of
  ten-thousandths, making that formatting exact.
* Fallible Python code (list indexing that can raise IndexError) is modelled
  with `Except String`.
* Python dicts keyed by strings / ints are modelled as association lists in
  insertion order; an insertion conses at the front so that `List.lookup`
  (first match) realises the overwrite semantics of dict assignment.
-/

namespace TracyMc

/-- Python runtime literal values as they occur in trace events and IR
constants.  A float is represented by its value in ten-thousandths, which
makes the `%.4f` formatting used by `stringify_constant` exact. -/
inductive Lit where
  | int (n : Int)
  | bool (b : Bool)
  | float4 (tenThousandths : Int)
  | str (s : String)
  | pyNone
deriving DecidableEq, Repr

/-- Pad a natural number to at least four decimal digits, as the fractional
part of Python float formatting does. -/
def pad4 (n : Nat) : String :=
  let s := toString n
  String.mk (List.replicate (4 - s.length) '0') ++ s

/-- Render a float given as ten-thousandths the way Python renders
`f"{val:.4f}"`. -/
def float4ToString (k : Int) : String :=
  let sign := if k < 0 then "-" else ""
  let a := k.natAbs
  sign ++ toString (a / 10000) ++ "." ++ pad4 (a % 10000)

/-- Python `str()` of a literal; embeds `stringify_constant` of
src/tracer.py: floats are formatted with four decimal places, everything
else via its default text form. -/
def stringify_constant : Lit → String
  | .float4 k => float4ToString k
  | .int n => toString n
  | .bool b => if b then "True" else "False"
  | .str s => s
  | .pyNone => "None"

/-- Python `str.startswith`, expressed on the character lists of the two
strings. -/
def startswith (s pre : String) : Bool :=
  pre.data.isPrefixOf s.data

/-- One trace event, embedding the `TraceEvent` named tuple of
src/tracer.py. -/
structure TraceEvent where
  op : String
  output_var : String
  output_val : Lit
  inputs : List (String × Lit)
  lineno : Int
deriving DecidableEq, Repr

/-- The fixed table of binary operator mnemonics of `Trace.to_ir`. -/
def BINARY_OPS : List (String × String) :=
  [("add", "+"), ("sub", "-"), ("mul", "*"), ("div", "/"), ("truediv", "/"),
   ("floordiv", "//"), ("mod", "%"), ("pow", "**"), ("gt", ">"), ("ge", ">="),
   ("lt", "<"), ("le", "<="), ("eq", "=="), ("ne", "!="), ("bitand", "&"),
   ("bitor", "|"), ("bitxor", "^"), ("lshift", "<<"), ("rshift", ">>")]

/-- The inner `resolve` function of `Trace.to_ir`: a mapped name yields its
recorded expression text; a compiler-synthesized constant placeholder yields
the literal's text; any other synthesized temporary yields the placeholder
text; any other name stands for itself. -/
def resolve (varExprs : List (String × String)) (name : String) (val : Lit) :
    String :=
  match varExprs.lookup name with
  | some e => e
  | Option.none =>
    if startswith name "$const" || startswith name "const(" then
      stringify_constant val
    else if startswith name "$" && !startswith name "$const" then
      "unknown variable"
    else
      name

/-- A node as first emitted by the streaming pass of `Trace.to_ir`, before
linking.  A `cond` node is a `Conditional` whose body pointer is still
unset; a `ret` node is a `Return`. -/
inductive Node where
  | cond (text : String) (value : Lit)
  | ret (text : String) (value : Lit)
deriving DecidableEq, Repr

/-- The running state of the streaming pass of `Trace.to_ir`: the
`var_exprs` dict and the `nodes` list. -/
structure ToIRState where
  varExprs : List (String × String)
  nodes : List Node
deriving DecidableEq, Repr

/-- One iteration of the event loop of `Trace.to_ir`, mirroring its
if/elif chain.  The only failing paths are the ones where the Python code
indexes a too-short input list (`event.inputs[0]` of a branch event,
`event.inputs[1]` of a binary-operator event), which raises IndexError. -/
def toIRStep (s : ToIRState) (e : TraceEvent) : Except String ToIRState :=
  if e.op = "branch" then
    match e.inputs with
    | [] => .error "IndexError"
    | (condName, condVal) :: _ =>
      if resolve s.varExprs condName condVal = "True" ∨
          resolve s.varExprs condName condVal = "False" then
        .ok s
      else
        .ok { s with
              nodes := s.nodes ++
                [Node.cond (resolve s.varExprs condName condVal) condVal] }
  else if e.op = "return" then
    match e.inputs with
    | (valName, valVal) :: _ =>
      .ok { s with
            nodes := s.nodes ++
              [Node.ret (resolve s.varExprs valName valVal) e.output_val] }
    | [] =>
      .ok { s with
            nodes := s.nodes ++
              [Node.ret (stringify_constant e.output_val) e.output_val] }
  else if (e.op = "cast" ∨ e.op = "assign") ∧ e.inputs.length = 1 then
    match e.inputs with
    | (inName, inVal) :: _ =>
      .ok { s with
            varExprs := (e.output_var, resolve s.varExprs inName inVal) ::
              s.varExprs }
    | [] => .error "IndexError"
  else
    match BINARY_OPS.lookup e.op with
    | some opSym =>
      match e.inputs with
      | (lhsName, lhsVal) :: (rhsName, rhsVal) :: _ =>
        .ok { s with
              varExprs := (e.output_var,
                "(" ++ resolve s.varExprs lhsName lhsVal ++ " " ++ opSym ++
                " " ++ resolve s.varExprs rhsName rhsVal ++ ")") ::
                s.varExprs }
      | _ => .error "IndexError"
    | Option.none =>
      if e.op = "bool" then
        match e.inputs with
        | (name, val) :: _ =>
          .ok { s with
                varExprs := (e.output_var, resolve s.varExprs name val) ::
                  s.varExprs }
        | [] =>
          .ok { s with varExprs := (e.output_var, "False") :: s.varExprs }
      else
        .ok { s with
              varExprs := (e.output_var,
                e.op ++ "(" ++
                String.intercalate ", "
                  (e.inputs.map (fun p => resolve s.varExprs p.1 p.2)) ++
                ")") :: s.varExprs }

/-- The event loop of `Trace.to_ir`, folded over the event list. -/
def runEvents (s : ToIRState) : List TraceEvent → Except String ToIRState
  | [] => .ok s
  | e :: es =>
    match toIRStep s e with
    | .error msg => .error msg
    | .ok s2 => runEvents s2 es

/-- The linked decision tree produced by `Trace.to_ir`: the `Return` and
`Conditional` dataclasses of src/tracer.py after the linking loop, where a
`Conditional` whose body was never assigned keeps `Option.none`. -/
inductive TIR where
  | ret (text : String) (value : Lit)
  | cond (text : String) (value : Lit) (body : Option TIR)

/-- The linking loop of `Trace.to_ir` (the backwards pass that sets each
`Conditional`'s body to the node immediately following it), expressed as the
tree reachable from `nodes[0]`: a leading `Return` ignores everything after
it, a leading `Conditional` points at the linked remainder, and an empty
node list yields nothing. -/
def linkNodes : List Node → Option TIR
  | [] => Option.none
  | Node.ret t v :: _ => some (TIR.ret t v)
  | Node.cond t v :: rest => some (TIR.cond t v (linkNodes rest))

/-- `Trace.to_ir` of src/tracer.py: run the streaming pass, then link. -/
def to_ir (events : List TraceEvent) : Except String (Option TIR) :=
  match runEvents ⟨[], []⟩ events with
  | .error msg => .error msg
  | .ok s => .ok (linkNodes s.nodes)

/-- The chain of nodes reachable from the root of a linked tree, in link
order. -/
def chainNodes : TIR → List Node
  | .ret t v => [Node.ret t v]
  | .cond t v Option.none => [Node.cond t v]
  | .cond t v (some u) => Node.cond t v :: chainNodes u

/-- The first emitted node corresponding to the root of a linked tree. -/
def headNode : TIR → Node
  | .ret t v => Node.ret t v
  | .cond t v _ => Node.cond t v

/-- A conditional node whose text is a concrete boolean literal. -/
def nodeFolded : Node → Bool
  | .cond t _ => t == "True" || t == "False"
  | .ret _ _ => false

/-- No node of the emitted list is a compile-time-decided conditional. -/
def nodesOK (ns : List Node) : Bool :=
  ns.all (fun n => !nodeFolded n)

/-- No conditional of a linked tree carries the text of a concrete boolean
literal. -/
def noFoldedCond : TIR → Bool
  | .ret _ _ => true
  | .cond t _ Option.none => !(t == "True" || t == "False")
  | .cond t _ (some u) => !(t == "True" || t == "False") && noFoldedCond u

/-- Well-formedness of a trace event with respect to the list indexing
`Trace.to_ir` performs: a branch event carries at least one input and a
binary-operator event at least two. -/
def wfEvent (e : TraceEvent) : Prop :=
  (e.op = "branch" → e.inputs ≠ []) ∧
  ((BINARY_OPS.lookup e.op).isSome → 2 ≤ e.inputs.length)

instance (e : TraceEvent) : Decidable (wfEvent e) := by
  unfold wfEvent; infer_instance

/-!  The numba CFG/IR abstraction, as consumed by the three passes.  A
function IR is a mapping from block label to statement list whose last
statement is the block's terminator.  Expression operands are variable
names, as in numba where `Expr` fields hold `ir.Var` values. -/

/-- An `ir.Expr` of the forms the passes inspect, identified through its
`op` tag; every other expression form is `otherE` carrying its `op` string
and optional `value` operand. -/
inductive IRExpr where
  | binop (fn : String) (lhs rhs : String)
  | inplace_binop (fn : String) (lhs rhs : String)
  | cast (value : String)
  | call (func : String) (args : List String)
  | getattrE (value : String) (attr : String)
  | make_function
  | otherE (op : String) (value : Option String)
deriving DecidableEq, Repr

/-- The right-hand side of an assignment: `ir.Const`, `ir.Var`, `ir.Expr`,
`ir.Global`/`ir.FreeVar` (identified by name only at the CFG level), or any
other value kind. -/
inductive RVal where
  | const (v : Lit)
  | var (name : String)
  | expr (e : IRExpr)
  | globalRef (name : String)
  | freevarRef (name : String)
  | otherVal
deriving DecidableEq, Repr

/-- A numba IR statement of the kinds the passes distinguish.  `logCall op`
stands for the statement group `TracingInjectionPass._inject_log` emits for
one recorded operation (constant assignments, tuple build and the call of
the logging primitive); its internal variable names depend on runtime
object identity (Python `id()`), so the group is modelled as one marker
statement carrying the logged operation name. -/
inductive Stmt where
  | assign (target : String) (value : RVal)
  | jump (target : Nat)
  | branch (cond : String) (truebr falsebr : Nat)
  | ret (value : RVal)
  | logCall (op : String)
  | other
deriving DecidableEq, Repr

/-- A control-flow graph: block label to statement list, in insertion
order, labels unique in any CFG produced by the host compiler. -/
abbrev CFG := List (Nat × List Stmt)

/-- Replace the body of the block at a label, in place. -/
def setBlock (cfg : CFG) (label : Nat) (body : List Stmt) : CFG :=
  cfg.map (fun p => if p.1 = label then (label, body) else p)

/-- `DiamondPruningPass._get_jump_target`: a label resolves only if its
block exists and contains exactly one statement which is an unconditional
jump. -/
def get_jump_target (blocks : CFG) (label : Nat) : Option Nat :=
  match blocks.lookup label with
  | Option.none => Option.none
  | some blk =>
    match blk with
    | [Stmt.jump t] => some t
    | _ => Option.none

/-- The `local_defs` dict of `DiamondPruningPass._get_return_const`: the
block's own assignments, later assignments shadowing earlier ones (hence
the reversal, since `List.lookup` returns the first match). -/
def localDefsOf (blk : List Stmt) : List (String × RVal) :=
  (blk.filterMap fun s =>
    match s with
    | Stmt.assign t v => some (t, v)
    | _ => Option.none).reverse

/-- The cycle-guarded chase of `DiamondPruningPass._get_return_const`
across Var-to-Var and Cast links through a block's local assignments.  The
fuel only bounds the recursion for Lean; the `visited` guard alone already
terminates the walk after at most one step per distinct assigned name, so
fuel `defs.length + 1` is never exhausted. -/
def chaseVar (defs : List (String × RVal)) :
    Nat → List String → String → Option Lit
  | 0, _, _ => Option.none
  | fuel + 1, visited, name =>
    if name ∈ visited then Option.none
    else
      match defs.lookup name with
      | Option.none => Option.none
      | some (RVal.const v) => some v
      | some (RVal.expr (IRExpr.cast inner)) =>
        chaseVar defs fuel (name :: visited) inner
      | some (RVal.var n2) =>
        chaseVar defs fuel (name :: visited) n2
      | some _ => Option.none

/-- `DiamondPruningPass._get_return_const`: the literal a block's terminal
return value chases to through that block's own local assignments, if
any. -/
def get_return_const (blocks : CFG) (label : Nat) : Option Lit :=
  match blocks.lookup label with
  | Option.none => Option.none
  | some blk =>
    match blk.getLast? with
    | some (Stmt.ret rv) =>
      let defs := localDefsOf blk
      match rv with
      | RVal.var name => chaseVar defs (defs.length + 1) [] name
      | RVal.const v => some v
      | _ => Option.none
    | _ => Option.none

/-- The mutable scan state of `DiamondPruningPass.run_pass`: the blocks
(mutated in place in Python) and the `changed` flag. -/
structure ScanState where
  blocks : CFG
  changed : Bool
deriving DecidableEq, Repr

/-- Rewrite a block's terminator (its last statement) to an unconditional
jump, setting the changed flag, as `block.body[-1] = ir.Jump(...)` does. -/
def rewriteTerm (st : ScanState) (label : Nat) (blk : List Stmt)
    (target : Nat) : ScanState :=
  { blocks := setBlock st.blocks label (blk.dropLast ++ [Stmt.jump target]),
    changed := true }

/-- Case 4 of the scan of `DiamondPruningPass.run_pass`: both branch
targets return the same constant. -/
def diamondCase4 (st : ScanState) (label : Nat) (blk : List Stmt)
    (t f : Nat) : ScanState :=
  match get_return_const st.blocks t, get_return_const st.blocks f with
  | some trueRet, some falseRet =>
    if trueRet = falseRet then rewriteTerm st label blk t else st
  | _, _ => st

/-- One iteration of the block loop of `DiamondPruningPass.run_pass`: the
four-way elif chain over a block ending in a two-way branch.  The outer
match over the two jump targets is the unfolding of the Python conditions
`x is not None and ...`. -/
def processBlock (st : ScanState) (label : Nat) : ScanState :=
  match st.blocks.lookup label with
  | Option.none => st
  | some blk =>
    match blk.getLast? with
    | some (Stmt.branch _ t f) =>
      match get_jump_target st.blocks t, get_jump_target st.blocks f with
      | some a, some b =>
        if a = b then rewriteTerm st label blk a
        else if a = f then rewriteTerm st label blk f
        else if b = t then rewriteTerm st label blk t
        else diamondCase4 st label blk t f
      | some a, Option.none =>
        if a = f then rewriteTerm st label blk f
        else diamondCase4 st label blk t f
      | Option.none, some b =>
        if b = t then rewriteTerm st label blk t
        else diamondCase4 st label blk t f
      | Option.none, Option.none => diamondCase4 st label blk t f
    | _ => st

/-- The full scan of `DiamondPruningPass.run_pass` over the snapshot of
block labels taken at entry (`list(blocks.items())`), threading the
in-place mutations through subsequent iterations. -/
def runScan (cfg : CFG) : ScanState :=
  (cfg.map Prod.fst).foldl processBlock { blocks := cfg, changed := false }

/-- The observable outcome of one diamond-pass run: the final blocks, the
internal changed flag, and the value `run_pass` returns. -/
structure PassOutcome where
  blocks : CFG
  changed : Bool
  retVal : Bool
deriving DecidableEq, Repr

/-- `DiamondPruningPass.run_pass`, parametric in the host compiler's
dead-code-elimination utility `dce` (external to this repository), which
the pass invokes exactly when its scan changed something; the method itself
returns `True` unconditionally. -/
def DiamondPruningPass.run_pass (dce : CFG → CFG) (cfg : CFG) :
    PassOutcome :=
  let st := runScan cfg
  { blocks := if st.changed then dce st.blocks else st.blocks,
    changed := st.changed,
    retVal := true }

/-!  The forced-inlining pass of src/inlining.py.  The numba utilities it
calls — `ir_utils.get_definition`, `inline_closure_call` and
`ir_utils.dead_code_elimination` — belong to the host compiler and are
taken as parameters: variable definitions as an oracle from variable name
to definition, the splicing of a callee body as an opaque CFG transformer
returning the new work items it pushes, and dead-code elimination as an
opaque CFG transformer. -/

/-- A Python object as probed by the resolution chain of
`InlineAllCallsPass` and `TracingInjectionPass`: its truthiness, whether it
is callable, whether it is a type, whether it has a `code` attribute,
its optional `py_func` unwrapping (njit dispatchers), its attribute
dictionary, its optional declared name, and its default text form. -/
inductive PyObj where
  | mk (truthy isCallable isType hasCode : Bool) (pyFunc : Option PyObj)
      (attrs : List (String × PyObj)) (pyName : Option String)
      (strForm : String)

/-- Truthiness flag of a Python object. -/
def PyObj.truthy : PyObj → Bool
  | .mk t _ _ _ _ _ _ _ => t

/-- Whether the object is callable. -/
def PyObj.isCallable : PyObj → Bool
  | .mk _ c _ _ _ _ _ _ => c

/-- Whether the object is a type (a class constructor). -/
def PyObj.isType : PyObj → Bool
  | .mk _ _ ty _ _ _ _ _ => ty

/-- Whether the object has retrievable code. -/
def PyObj.hasCode : PyObj → Bool
  | .mk _ _ _ hc _ _ _ _ => hc

/-- The object behind the `py_func` attribute, when present. -/
def PyObj.pyFunc : PyObj → Option PyObj
  | .mk _ _ _ _ pf _ _ _ => pf

/-- Python `getattr(obj, name, None)`. -/
def PyObj.getattrD : PyObj → String → Option PyObj
  | .mk _ _ _ _ _ attrs _ _, a => attrs.lookup a

/-- The declared name of the object, when it has one. -/
def PyObj.pyName : PyObj → Option String
  | .mk _ _ _ _ _ _ n _ => n

/-- Python `str(obj)`. -/
def PyObj.strForm : PyObj → String
  | .mk _ _ _ _ _ _ _ s => s

/-- What `ir_utils.get_definition` can report for a variable, as far as the
resolution chains of src/inlining.py and src/tracer.py inspect it:
a global or free-variable reference carrying its runtime value (possibly
Python None), a `getattr` expression, a `make_function` expression, or
anything else. -/
inductive FuncDef where
  | globalF (obj : Option PyObj)
  | freevarF (obj : Option PyObj)
  | getattrF (objVar : String) (attr : String)
  | makeFunctionF
  | otherF

/-- The variable-definition oracle standing for `ir_utils.get_definition`
over the function IR. -/
abbrev Defs := String → Option FuncDef

/-- The `impl` closure of `InlineAllCallsPass.run_pass`: whether the call
whose callee variable is `funcVar` resolves to something the pass inlines —
through a direct global/free-variable reference, an attribute access off a
global/free-variable object (unwrapping njit dispatchers through
`py_func`), or a function literal (`make_function`); the resolved object
must be truthy, callable, not a type, and have retrievable code. -/
def implWouldInline (defs : Defs) (funcVar : String) : Bool :=
  let fd := defs funcVar
  let funcObj : Option PyObj :=
    match fd with
    | some (FuncDef.globalF o) => o
    | some (FuncDef.freevarF o) => o
    | some (FuncDef.getattrF objVar attr) =>
      match defs objVar with
      | some (FuncDef.globalF (some o)) => o.getattrD attr
      | some (FuncDef.freevarF (some o)) => o.getattrD attr
      | _ => Option.none
    | _ => Option.none
  let funcObj2 : Option PyObj :=
    match funcObj with
    | some o =>
      if o.truthy then
        match o.pyFunc with
        | some p => some p
        | Option.none => some o
      else some o
    | Option.none => Option.none
  let cond1 : Bool :=
    match funcObj2 with
    | some o => o.truthy && o.isCallable && !o.isType && o.hasCode
    | Option.none => false
  let cond2 : Bool :=
    match fd with
    | some FuncDef.makeFunctionF => true
    | _ => false
  cond1 || cond2

/-- The callee variable of a statement, when the statement is an
assignment whose value is a call expression. -/
def stmtCallVar : Stmt → Option String
  | Stmt.assign _ (RVal.expr (IRExpr.call f _)) => some f
  | _ => Option.none

/-- The index of the first statement of a block at which
`guard(impl, ...)` returns true, i.e. the call site the work-list iteration
of `InlineAllCallsPass.run_pass` breaks at; nothing when the whole block
scans through without an inlinable call. -/
def findInlinableIdx (defs : Defs) : List Stmt → Option Nat
  | [] => Option.none
  | s :: rest =>
    match stmtCallVar s with
    | some f =>
      if implWouldInline defs f then some 0
      else (findInlinableIdx defs rest).map (· + 1)
    | Option.none => (findInlinableIdx defs rest).map (· + 1)

/-- The work-list loop of `InlineAllCallsPass.run_pass`.  The work list
holds block labels (Python holds `(label, block)` pairs whose block
objects alias the mutating IR); `inliner cfg label i` stands for
`inline_closure_call` splicing the callee at statement `i` of the block at
`label`, returning the rewritten CFG and the labels it pushes.  The fuel
only bounds the recursion for Lean: when nothing resolves, the loop pops
one item per step and stops on its own. -/
def inlineLoop (defs : Defs) (inliner : CFG → Nat → Nat → CFG × List Nat) :
    Nat → CFG → List Nat → CFG
  | 0, cfg, _ => cfg
  | fuel + 1, cfg, workList =>
    match workList with
    | [] => cfg
    | label :: rest =>
      match cfg.lookup label with
      | Option.none => inlineLoop defs inliner fuel cfg rest
      | some blk =>
        match findInlinableIdx defs blk with
        | Option.none => inlineLoop defs inliner fuel cfg rest
        | some i =>
          let step := inliner cfg label i
          inlineLoop defs inliner fuel step.1 (step.2 ++ rest)

/-- `InlineAllCallsPass.run_pass`: seed the work list with every block,
run the work-list loop, finish with dead-code elimination, and return
`True` unconditionally. -/
def InlineAllCallsPass.run_pass (defs : Defs) (dce : CFG → CFG)
    (inliner : CFG → Nat → Nat → CFG × List Nat) (fuel : Nat) (cfg : CFG) :
    CFG × Bool :=
  (dce (inlineLoop defs inliner fuel cfg (cfg.map Prod.fst).reverse), true)

/-!  The trace-instrumentation pass of src/tracer.py
(`TracingInjectionPass.run_pass`). -/

/-- The `op_to_log` resolution of `TracingInjectionPass.run_pass` for a
call expression: the callee's declared name when the callee resolves to a
truthy global/free-variable object, else its default text form, else the
plain `op` tag. -/
def callOpName (defs : Defs) (funcVar : String) : String :=
  match defs funcVar with
  | some (FuncDef.globalF (some o)) =>
    if o.truthy then
      match o.pyName with
      | some n => n
      | Option.none => o.strForm
    else "call"
  | some (FuncDef.freevarF (some o)) =>
    if o.truthy then
      match o.pyName with
      | some n => n
      | Option.none => o.strForm
    else "call"
  | _ => "call"

/-- The operation name logged for a generic expression assignment (the
final `elif` of the statement dispatch of `TracingInjectionPass.run_pass`). -/
def genericOpName (defs : Defs) : IRExpr → String
  | IRExpr.call f _ => callOpName defs f
  | IRExpr.getattrE _ _ => "getattr"
  | IRExpr.make_function => "make_function"
  | IRExpr.otherE op _ => op
  | IRExpr.binop fn _ _ => fn
  | IRExpr.inplace_binop fn _ _ => fn
  | IRExpr.cast _ => "cast"

/-- The statement dispatch of `TracingInjectionPass.run_pass`: each listed
statement kind is emitted together with its logging group, after the
statement for assignments and before it for branches and returns; every
other statement passes through untouched. -/
def instrumentStmt (defs : Defs) (s : Stmt) : List Stmt :=
  match s with
  | Stmt.assign _ (RVal.expr (IRExpr.binop fn _ _)) => [s, Stmt.logCall fn]
  | Stmt.assign _ (RVal.expr (IRExpr.inplace_binop fn _ _)) =>
    [s, Stmt.logCall fn]
  | Stmt.assign _ (RVal.expr (IRExpr.cast _)) => [s, Stmt.logCall "cast"]
  | Stmt.assign _ (RVal.var _) => [s, Stmt.logCall "assign"]
  | Stmt.assign _ (RVal.const _) => [s, Stmt.logCall "assign"]
  | Stmt.branch _ _ _ => [Stmt.logCall "branch", s]
  | Stmt.ret _ => [Stmt.logCall "return", s]
  | Stmt.assign _ (RVal.expr e) => [s, Stmt.logCall (genericOpName defs e)]
  | _ => [s]

/-- The rewritten body of one block: each statement replaced by its
instrumented group, in order. -/
def instrumentBlock (defs : Defs) (blk : List Stmt) : List Stmt :=
  (blk.map (instrumentStmt defs)).flatten

/-- `TracingInjectionPass.run_pass`: instrument every block, then insert
the binding of the logging primitive at the front of the entry block (the
block with the smallest label; Python `min()` raises on an empty mapping),
and return `True`. -/
def TracingInjectionPass.run_pass (defs : Defs) (cfg : CFG) :
    Except String (CFG × Bool) :=
  let cfg2 : CFG := cfg.map (fun p => (p.1, instrumentBlock defs p.2))
  match (cfg2.map Prod.fst).min? with
  | Option.none => .error "ValueError: min() arg is an empty sequence"
  | some firstLabel =>
    match cfg2.lookup firstLabel with
    | Option.none => .error "KeyError"
    | some entry =>
      .ok (setBlock cfg2 firstLabel
        (Stmt.assign "$log_trace_tuple" (RVal.globalRef "_log_trace_tuple")
          :: entry), true)

/-!  Concrete inputs used to evaluate the definitions. -/

/-- The event sequence an instrumented `return metric3 > 5` produces with
`metric3 = 6`: the comparison, the cast of the return value, and the
return. -/
def eventsGT6 : List TraceEvent :=
  [⟨"gt", "$10compare_op", Lit.bool true,
    [("metric3", Lit.int 6), ("$const8", Lit.int 5)], 3⟩,
   ⟨"cast", "$12return_value", Lit.bool true,
    [("$10compare_op", Lit.bool true)], 3⟩,
   ⟨"return", "return_val", Lit.bool true,
    [("$12return_value", Lit.bool true)], 3⟩]

/-- The same event sequence with `metric3 = 1`, so the comparison is
false. -/
def eventsGT1 : List TraceEvent :=
  [⟨"gt", "$10compare_op", Lit.bool false,
    [("metric3", Lit.int 1), ("$const8", Lit.int 5)], 3⟩,
   ⟨"cast", "$12return_value", Lit.bool false,
    [("$10compare_op", Lit.bool false)], 3⟩,
   ⟨"return", "return_val", Lit.bool false,
    [("$12return_value", Lit.bool false)], 3⟩]

/-- An event sequence with three runtime-decided branches followed by a
return: each branch condition is a comparison over a named input, then a
bool coercion, then the branch. -/
def eventsChain : List TraceEvent :=
  [⟨"gt", "$b1", Lit.bool true, [("metric1", Lit.int 1), ("$const01", Lit.int 0)], 1⟩,
   ⟨"bool", "$p1", Lit.bool true, [("$b1", Lit.bool true)], 1⟩,
   ⟨"branch", "$p1", Lit.bool true, [("$p1", Lit.bool true)], 1⟩,
   ⟨"gt", "$b2", Lit.bool true, [("metric2", Lit.int 2), ("$const02", Lit.int 0)], 2⟩,
   ⟨"bool", "$p2", Lit.bool true, [("$b2", Lit.bool true)], 2⟩,
   ⟨"branch", "$p2", Lit.bool true, [("$p2", Lit.bool true)], 2⟩,
   ⟨"gt", "$b3", Lit.bool true, [("metric3", Lit.int 3), ("$const03", Lit.int 0)], 3⟩,
   ⟨"bool", "$p3", Lit.bool true, [("$b3", Lit.bool true)], 3⟩,
   ⟨"branch", "$p3", Lit.bool true, [("$p3", Lit.bool true)], 3⟩,
   ⟨"return", "return_val", Lit.bool true, [("$const9", Lit.bool true)], 4⟩]

/-- The linked tree expected from `eventsChain`: three conditionals in
emission order ending in the return. -/
def tirChain : TIR :=
  TIR.cond "(metric1 > 0)" (Lit.bool true) (some
    (TIR.cond "(metric2 > 0)" (Lit.bool true) (some
      (TIR.cond "(metric3 > 0)" (Lit.bool true) (some
        (TIR.ret "True" (Lit.bool true)))))))

/-- An event sequence whose branch condition folds to the concrete text
`True` (through an assignment from a constant placeholder), so the branch
is dropped by reconstruction. -/
def eventsFolded : List TraceEvent :=
  [⟨"assign", "$phi", Lit.bool true, [("$const5", Lit.bool true)], 1⟩,
   ⟨"branch", "$phi", Lit.bool true, [("$phi", Lit.bool true)], 1⟩,
   ⟨"return", "return_val", Lit.int 7, [("$const7", Lit.int 7)], 2⟩]

/-- A CFG whose entry branch survives the three jump-target cases but
whose two targets both return the literal 4 (one through a Var link, one
through a Cast link). -/
def cfgC5 : CFG :=
  [(0, [Stmt.assign "x" (RVal.var "a"), Stmt.branch "c" 1 2]),
   (1, [Stmt.assign "t1" (RVal.const (Lit.int 4)), Stmt.ret (RVal.var "t1")]),
   (2, [Stmt.assign "t2" (RVal.const (Lit.int 4)),
        Stmt.assign "t3" (RVal.expr (IRExpr.cast "t2")),
        Stmt.ret (RVal.var "t3")])]

/-- A CFG on which the diamond pass is not idempotent: block 1 is a
single-statement branch both of whose targets chase to block 4, so the
first run rewrites block 1 to a bare jump, which only the second run can
then chase from block 0. -/
def cfgTwoRuns : CFG :=
  [(0, [Stmt.branch "c" 1 2]),
   (1, [Stmt.branch "d" 3 3]),
   (2, [Stmt.jump 4]),
   (3, [Stmt.jump 4]),
   (4, [Stmt.ret (RVal.const (Lit.int 1))])]

/-- A CFG without any branch, on which the diamond pass changes nothing. -/
def cfgNoBranch : CFG := [(0, [Stmt.ret (RVal.const (Lit.int 1))])]

/-- The empty definition oracle: no variable has a retrievable
definition. -/
def defsEmpty : Defs := fun _ => Option.none

/-- An inliner stub for witnesses: it is never invoked in the situations
proved about. -/
def inlinerId : CFG → Nat → Nat → CFG × List Nat := fun cfg _ _ => (cfg, [])

/-- A CFG with one unresolvable call site. -/
def cfgCall : CFG :=
  [(0, [Stmt.assign "r" (RVal.expr (IRExpr.call "intvar" ["x"])),
        Stmt.ret (RVal.var "r")])]

/-!  Helper lemmas. -/

/-- A name that begins with a dollar sign cannot also begin with the
`const(` spelling of a constant placeholder. -/
theorem startswith_dollar_not_constparen (n : String)
    (h : startswith n "$" = true) : startswith n "const(" = false := by
  unfold startswith at h ⊢
  have hd : "$".data = ['$'] := rfl
  have hc : "const(".data = ['c', 'o', 'n', 's', 't', '('] := rfl
  rw [hd] at h
  rw [hc]
  cases hn : n.data with
  | nil => rw [hn] at h; simp [List.isPrefixOf] at h
  | cons a as =>
    rw [hn] at h
    simp [List.isPrefixOf] at h
    subst h
    simp [List.isPrefixOf]

/-- Every step of the streaming pass preserves the absence of
compile-time-decided conditionals among the emitted nodes. -/
theorem toIRStep_nodesOK {s : ToIRState} {e : TraceEvent} {s2 : ToIRState}
    (h : toIRStep s e = .ok s2) (hs : nodesOK s.nodes = true) :
    nodesOK s2.nodes = true := by
  unfold toIRStep at h
  split at h
  · split at h
    · exact absurd h (by simp)
    · split at h
      · cases h; exact hs
      · cases h
        rename_i hne
        simp only [not_or] at hne
        simp only [nodesOK, List.all_append, List.all_cons, List.all_nil,
          nodeFolded] at hs ⊢
        simp [hs, hne.1, hne.2]
  · split at h
    · split at h <;>
        (cases h;
         simp only [nodesOK, List.all_append, List.all_cons, List.all_nil,
           Bool.and_true, nodeFolded] at hs ⊢;
         simp [hs])
    · split at h
      · split at h
        · cases h; exact hs
        · exact absurd h (by simp)
      · split at h
        · split at h
          · cases h; exact hs
          · exact absurd h (by simp)
        · split at h
          · split at h <;> (cases h; exact hs)
          · cases h; exact hs

/-- The event loop preserves the absence of compile-time-decided
conditionals among the emitted nodes. -/
theorem runEvents_nodesOK :
    ∀ (events : List TraceEvent) (s s2 : ToIRState),
      runEvents s events = .ok s2 → nodesOK s.nodes = true →
      nodesOK s2.nodes = true := by
  intro events
  induction events with
  | nil => intro s s2 h hs; cases h; exact hs
  | cons e es ih =>
    intro s s2 h hs
    unfold runEvents at h
    split at h
    · exact absurd h (by simp)
    · rename_i s1 hstep
      exact ih s1 s2 h (toIRStep_nodesOK hstep hs)

/-- Linking a node list free of compile-time-decided conditionals yields a
tree free of them. -/
theorem linkNodes_noFolded :
    ∀ ns : List Node, nodesOK ns = true →
      ∀ t : TIR, linkNodes ns = some t → noFoldedCond t = true := by
  intro ns
  induction ns with
  | nil => intro _ t h; cases h
  | cons n rest ih =>
    intro hok t h
    cases n with
    | ret a b =>
      cases h
      rfl
    | cond a b =>
      cases h
      simp only [nodesOK, List.all_cons, Bool.and_eq_true, nodeFolded] at hok
      cases hrest : linkNodes rest with
      | none =>
        simp only [noFoldedCond, hrest]
        simpa using hok.1
      | some u =>
        simp only [noFoldedCond, hrest, Bool.and_eq_true]
        exact ⟨by simpa using hok.1, ih hok.2 u hrest⟩

/-- Any step of the streaming pass succeeds on a well-formed event. -/
theorem toIRStep_total (s : ToIRState) (e : TraceEvent) (he : wfEvent e) :
    ∃ s2 : ToIRState, toIRStep s e = .ok s2 := by
  obtain ⟨hbr, hbin⟩ := he
  unfold toIRStep
  split
  · rename_i hop
    split
    · rename_i hnil
      exact absurd hnil (hbr hop)
    · split <;> exact ⟨_, rfl⟩
  · split
    · split <;> exact ⟨_, rfl⟩
    · split
      · rename_i hca
        split
        · exact ⟨_, rfl⟩
        · rename_i hnil
          rw [hnil] at hca
          simp at hca
      · split
        · rename_i hlk
          have hlen : 2 ≤ e.inputs.length := hbin (by rw [hlk]; rfl)
          split
          · exact ⟨_, rfl⟩
          · rename_i hne
            exfalso
            cases hin : e.inputs with
            | nil => rw [hin] at hlen; simp at hlen
            | cons p rest =>
              cases hrest : rest with
              | nil => rw [hin, hrest] at hlen; simp at hlen
              | cons q rest2 =>
                cases p; cases q
                exact hne _ _ _ _ _ (by rw [hin, hrest])
        · split
          · split <;> exact ⟨_, rfl⟩
          · exact ⟨_, rfl⟩

/-- The event loop succeeds on a list of well-formed events. -/
theorem runEvents_total :
    ∀ events : List TraceEvent, (∀ e ∈ events, wfEvent e) →
      ∀ s : ToIRState, ∃ s2, runEvents s events = .ok s2 := by
  intro events
  induction events with
  | nil => intro _ s; exact ⟨s, rfl⟩
  | cons e es ih =>
    intro hwf s
    obtain ⟨s1, hs1⟩ := toIRStep_total s e (hwf e (by simp))
    obtain ⟨s2, hs2⟩ := ih (fun x hx => hwf x (by simp [hx])) s1
    exact ⟨s2, by unfold runEvents; rw [hs1]; exact hs2⟩

/-- An event that is neither a branch nor a return leaves the emitted node
list untouched (it only updates the expression map). -/
theorem toIRStep_nodes_const {s : ToIRState} {e : TraceEvent}
    {s2 : ToIRState} (h : toIRStep s e = .ok s2) (h1 : e.op ≠ "branch")
    (h2 : e.op ≠ "return") : s2.nodes = s.nodes := by
  unfold toIRStep at h
  rw [if_neg h1, if_neg h2] at h
  split at h
  · split at h
    · cases h; rfl
    · exact absurd h (by simp)
  · split at h
    · split at h
      · cases h; rfl
      · exact absurd h (by simp)
    · split at h
      · split at h <;> (cases h; rfl)
      · cases h; rfl

/-- Over branch-free, return-free, arity-correct events the loop succeeds
and emits no node. -/
theorem runEvents_no_nodes :
    ∀ events : List TraceEvent,
      (∀ e ∈ events, e.op ≠ "branch" ∧ e.op ≠ "return" ∧
        ((BINARY_OPS.lookup e.op).isSome → 2 ≤ e.inputs.length)) →
      ∀ s : ToIRState, ∃ s2, runEvents s events = .ok s2 ∧
        s2.nodes = s.nodes := by
  intro events
  induction events with
  | nil => intro _ s; exact ⟨s, rfl, rfl⟩
  | cons e es ih =>
    intro hwf s
    obtain ⟨hb, hr, ha⟩ := hwf e (by simp)
    obtain ⟨s1, hs1⟩ := toIRStep_total s e ⟨fun hc => absurd hc hb, ha⟩
    obtain ⟨s2, hs2, hn⟩ := ih (fun x hx => hwf x (by simp [hx])) s1
    refine ⟨s2, by unfold runEvents; rw [hs1]; exact hs2, ?_⟩
    rw [hn, toIRStep_nodes_const hs1 hb hr]

/-- Every iteration of the diamond scan either leaves the state untouched
or raises the changed flag. -/
theorem processBlock_cases (st : ScanState) (l : Nat) :
    processBlock st l = st ∨ (processBlock st l).changed = true := by
  unfold processBlock diamondCase4 rewriteTerm
  split
  · exact Or.inl rfl
  · split
    · split <;> first
      | (split <;> first
          | exact Or.inr rfl
          | (split <;> first
              | exact Or.inr rfl
              | (split <;> first
                  | exact Or.inr rfl
                  | (split <;> first
                      | (split <;> first | exact Or.inr rfl | exact Or.inl rfl)
                      | exact Or.inl rfl))))
      | (split <;> first
          | exact Or.inr rfl
          | (split <;> first
              | (split <;> first | exact Or.inr rfl | exact Or.inl rfl)
              | exact Or.inl rfl))
      | (split <;> first
          | (split <;> first | exact Or.inr rfl | exact Or.inl rfl)
          | exact Or.inl rfl)
    · exact Or.inl rfl

/-- If the whole scan ends with the changed flag down, no iteration changed
anything. -/
theorem foldl_processBlock_fixed :
    ∀ labels : List Nat, ∀ st : ScanState,
      (labels.foldl processBlock st).changed = false →
      labels.foldl processBlock st = st ∧ st.changed = false := by
  intro labels
  induction labels with
  | nil => intro st h; exact ⟨rfl, h⟩
  | cons l ls ih =>
    intro st h
    simp only [List.foldl_cons] at h ⊢
    obtain ⟨hfix, hch⟩ := ih (processBlock st l) h
    cases processBlock_cases st l with
    | inl heq =>
      rw [heq] at hfix hch ⊢
      exact ⟨hfix, hch⟩
    | inr htrue => rw [htrue] at hch; cases hch

/-- A scan that ends with the changed flag down left the CFG untouched. -/
theorem runScan_fixed {cfg : CFG} (h : (runScan cfg).changed = false) :
    runScan cfg = { blocks := cfg, changed := false } := by
  unfold runScan at h ⊢
  exact (foldl_processBlock_fixed _ _ h).1

/-- When no call site of the CFG resolves, the inlining work-list loop
terminates on its own without touching anything. -/
theorem inlineLoop_no_resolve (defs : Defs)
    (inliner : CFG → Nat → Nat → CFG × List Nat) (cfg : CFG)
    (hno : ∀ l blk, cfg.lookup l = some blk →
      findInlinableIdx defs blk = Option.none) :
    ∀ (fuel : Nat) (wl : List Nat), inlineLoop defs inliner fuel cfg wl = cfg := by
  intro fuel
  induction fuel with
  | zero => intro _; rfl
  | succ n ih =>
    intro wl
    unfold inlineLoop
    cases wl with
    | nil => rfl
    | cons l rest =>
      cases hlk : cfg.lookup l with
      | none => simpa [hlk] using ih rest
      | some blk => simpa [hlk, hno l blk hlk] using ih rest

/-!  The claims. -/

/-- Claim C1: for every trace event whose operation is a binary operator of
the fixed table, reconstruction maps the event's output name to the
parenthesised text built from the resolved left operand, the operator
symbol and the resolved right operand; and on the event sequence of
`return metric3 > 5` reconstruction yields a Return whose expression text
is `(metric3 > 5)` and whose value is true for `metric3 = 6` and false for
`metric3 = 1`. -/
theorem C1_binop_reconstruction :
    (∀ (s : ToIRState) (e : TraceEvent) (opSym lhsName rhsName : String)
        (lhsVal rhsVal : Lit) (rest : List (String × Lit)),
      BINARY_OPS.lookup e.op = some opSym →
      e.inputs = (lhsName, lhsVal) :: (rhsName, rhsVal) :: rest →
      toIRStep s e = .ok { s with
        varExprs := (e.output_var,
          "(" ++ resolve s.varExprs lhsName lhsVal ++ " " ++ opSym ++ " " ++
          resolve s.varExprs rhsName rhsVal ++ ")") :: s.varExprs }) ∧
    to_ir eventsGT6 = .ok (some (TIR.ret "(metric3 > 5)" (Lit.bool true))) ∧
    to_ir eventsGT1 = .ok (some (TIR.ret "(metric3 > 5)" (Lit.bool false))) := by
  refine ⟨?_, rfl, rfl⟩
  intro s e opSym lhsName rhsName lhsVal rhsVal rest hlk hin
  have hne : ∀ bad : String, BINARY_OPS.lookup bad = Option.none →
      e.op ≠ bad := by
    intro bad hb hc
    rw [hc, hb] at hlk
    exact Option.noConfusion hlk
  have hca : ¬((e.op = "cast" ∨ e.op = "assign") ∧ e.inputs.length = 1) := by
    rintro ⟨hor, -⟩
    cases hor with
    | inl h => exact hne "cast" (by decide) h
    | inr h => exact hne "assign" (by decide) h
  unfold toIRStep
  rw [if_neg (hne "branch" (by decide)), if_neg (hne "return" (by decide)),
    if_neg hca, hlk, hin]

/-- Claim C2: a branch event whose condition resolves to the literal text
True or False is dropped (no node emitted, state unchanged); any other
branch event emits a Conditional carrying the resolved text and the
runtime condition value, not yet linked; consequently no conditional of a
reconstructed tree carries a concrete boolean text; and the concrete
folded-branch event sequence reconstructs to a bare Return. -/
theorem C2_branch_folding :
    (∀ (s : ToIRState) (e : TraceEvent) (condName : String) (condVal : Lit)
        (rest : List (String × Lit)),
      e.op = "branch" → e.inputs = (condName, condVal) :: rest →
      ((resolve s.varExprs condName condVal = "True" ∨
        resolve s.varExprs condName condVal = "False") →
        toIRStep s e = .ok s) ∧
      (¬(resolve s.varExprs condName condVal = "True" ∨
         resolve s.varExprs condName condVal = "False") →
        toIRStep s e = .ok { s with
          nodes := s.nodes ++
            [Node.cond (resolve s.varExprs condName condVal) condVal] })) ∧
    (∀ (events : List TraceEvent) (t : TIR),
      to_ir events = .ok (some t) → noFoldedCond t = true) ∧
    to_ir eventsFolded = .ok (some (TIR.ret "7" (Lit.int 7))) := by
  refine ⟨?_, ?_, rfl⟩
  · intro s e condName condVal rest hop hin
    constructor
    · intro htf
      unfold toIRStep
      rw [if_pos hop, hin]
      dsimp only
      rw [if_pos htf]
    · intro hntf
      unfold toIRStep
      rw [if_pos hop, hin]
      dsimp only
      rw [if_neg hntf]
  · intro events t h
    unfold to_ir at h
    cases hrun : runEvents ⟨[], []⟩ events with
    | error m => rw [hrun] at h; exact Except.noConfusion h
    | ok s =>
      rw [hrun] at h
      have hlink : linkNodes s.nodes = some t := by injection h
      exact linkNodes_noFolded s.nodes
        (runEvents_nodesOK events ⟨[], []⟩ s hrun rfl) t hlink

/-- Witness for C2 at concrete inputs: a branch whose condition resolves
to True is dropped; a branch whose condition resolves to a named metric
emits the Conditional. -/
theorem C2_branch_folding_witness :
    toIRStep ⟨[("$phi", "True")], []⟩
        ⟨"branch", "$phi", Lit.bool true, [("$phi", Lit.bool true)], 1⟩ =
      .ok ⟨[("$phi", "True")], []⟩ ∧
    toIRStep ⟨[], []⟩
        ⟨"branch", "$c", Lit.bool true, [("metric1", Lit.bool true)], 1⟩ =
      .ok ⟨[], [Node.cond "metric1" (Lit.bool true)]⟩ :=
  ⟨(C2_branch_folding.1 ⟨[("$phi", "True")], []⟩ _ "$phi" (Lit.bool true) []
      rfl rfl).1 (by decide),
   (C2_branch_folding.1 ⟨[], []⟩ _ "metric1" (Lit.bool true) []
      rfl rfl).2 (by decide)⟩

/-- Claim C3: linking connects the emitted nodes in emission order — an
empty emission yields nothing, the result is the first emitted node, and a
leading Conditional points at the linked remainder; on three
runtime-decided branches followed by a return, reconstruction yields the
Conditional-Conditional-Conditional-Return chain in chronological order. -/
theorem C3_linking :
    (∀ ns : List Node, linkNodes ns = Option.none ↔ ns = []) ∧
    (∀ (n : Node) (ns : List Node) (t : TIR),
      linkNodes (n :: ns) = some t → headNode t = n) ∧
    (∀ (tx : String) (v : Lit) (ns : List Node),
      linkNodes (Node.cond tx v :: ns) = some (TIR.cond tx v (linkNodes ns))) ∧
    to_ir eventsChain = .ok (some tirChain) ∧
    chainNodes tirChain =
      [Node.cond "(metric1 > 0)" (Lit.bool true),
       Node.cond "(metric2 > 0)" (Lit.bool true),
       Node.cond "(metric3 > 0)" (Lit.bool true),
       Node.ret "True" (Lit.bool true)] := by
  refine ⟨?_, ?_, fun tx v ns => rfl, rfl, rfl⟩
  · intro ns
    cases ns with
    | nil => simp [linkNodes]
    | cons n rest => cases n <;> simp [linkNodes]
  · intro n ns t h
    cases n with
    | ret a b => cases h; rfl
    | cond a b => cases h; rfl

/-- Witness for C3 at a concrete input: the root of the linked chain is
the first emitted node. -/
theorem C3_linking_witness :
    headNode tirChain = Node.cond "(metric1 > 0)" (Lit.bool true) :=
  C3_linking.2.1 (Node.cond "(metric1 > 0)" (Lit.bool true))
    [Node.cond "(metric2 > 0)" (Lit.bool true),
     Node.cond "(metric3 > 0)" (Lit.bool true),
     Node.ret "True" (Lit.bool true)]
    tirChain rfl

/-- Counterexample to claim C4 as stated: reconstruction is not total over
every trace event list — a branch event with an empty input list makes
`Trace.to_ir` index into the empty list (an IndexError in the source), so
it raises rather than returning a tree or nothing. -/
theorem C4_total_counterexample :
    to_ir [⟨"branch", "x", Lit.pyNone, [], 0⟩] = .error "IndexError" := rfl

/-- Claim C4, amended: reconstruction succeeds on every event list whose
branch events carry at least one input and whose binary-operator events
carry at least two; a synthesized temporary name (other than a constant
placeholder) with no mapping resolves to the text `unknown variable`; and
an empty event list yields no tree rather than an error. -/
theorem C4_total_amended :
    (∀ events : List TraceEvent, (∀ e ∈ events, wfEvent e) →
      ∃ r, to_ir events = .ok r) ∧
    (∀ (m : List (String × String)) (n : String) (v : Lit),
      m.lookup n = Option.none → startswith n "$" = true →
      startswith n "$const" = false → resolve m n v = "unknown variable") ∧
    to_ir [] = .ok Option.none := by
  refine ⟨?_, ?_, rfl⟩
  · intro events hwf
    obtain ⟨s2, hs2⟩ := runEvents_total events hwf ⟨[], []⟩
    exact ⟨linkNodes s2.nodes, by unfold to_ir; rw [hs2]⟩
  · intro m n v hm hds hdc
    have hcp := startswith_dollar_not_constparen n hds
    unfold resolve
    rw [hm]
    simp [hds, hdc, hcp]

/-- Witness for C4 at concrete inputs: a well-formed event list
reconstructs without error and an unmapped temporary resolves to the
placeholder. -/
theorem C4_total_amended_witness :
    (∃ r, to_ir eventsGT6 = .ok r) ∧
    resolve [] "$tmp3" Lit.pyNone = "unknown variable" :=
  ⟨C4_total_amended.1 eventsGT6 (by decide),
   C4_total_amended.2.1 [] "$tmp3" Lit.pyNone rfl (by decide) (by decide)⟩

/-- Witness for C1 at a concrete input: a `gt` event over a named metric
and a constant placeholder maps its output to the comparison text. -/
theorem C1_binop_reconstruction_witness :
    toIRStep ⟨[], []⟩
        ⟨"gt", "$t0", Lit.bool true,
         [("metric3", Lit.int 6), ("$const8", Lit.int 5)], 3⟩ =
      .ok ⟨[("$t0", "(metric3 > 5)")], []⟩ :=
  C1_binop_reconstruction.1 ⟨[], []⟩
    ⟨"gt", "$t0", Lit.bool true,
     [("metric3", Lit.int 6), ("$const8", Lit.int 5)], 3⟩
    ">" "metric3" "$const8" (Lit.int 6) (Lit.int 5) [] (by decide) rfl

/-- Claim C5: when a block ends in a two-way branch, none of the three
jump-target cases applies, and both branch targets return-chase to the
same literal constant through their own local assignments, the diamond
scan rewrites the branch terminator to an unconditional jump to the true
label. -/
theorem C5_equal_const_returns (st : ScanState) (label : Nat)
    (blk : List Stmt) (c : String) (t f : Nat) (v : Lit)
    (hblk : st.blocks.lookup label = some blk)
    (hterm : blk.getLast? = some (Stmt.branch c t f))
    (h1 : get_jump_target st.blocks t = Option.none ∨
      get_jump_target st.blocks f = Option.none ∨
      get_jump_target st.blocks t ≠ get_jump_target st.blocks f)
    (h2 : get_jump_target st.blocks t ≠ some f)
    (h3 : get_jump_target st.blocks f ≠ some t)
    (h4 : get_return_const st.blocks t = some v)
    (h5 : get_return_const st.blocks f = some v) :
    processBlock st label =
      { blocks := setBlock st.blocks label (blk.dropLast ++ [Stmt.jump t]),
        changed := true } := by
  have hc4 : diamondCase4 st label blk t f = rewriteTerm st label blk t := by
    unfold diamondCase4
    rw [h4, h5]
    dsimp only
    rw [if_pos rfl]
  unfold processBlock
  rw [hblk]
  dsimp only
  rw [hterm]
  dsimp only
  cases hgt : get_jump_target st.blocks t with
  | some a =>
    cases hgf : get_jump_target st.blocks f with
    | some b =>
      have hab : a ≠ b := by
        rcases h1 with h | h | h
        · rw [hgt] at h; exact absurd h (by simp)
        · rw [hgf] at h; exact absurd h (by simp)
        · rw [hgt, hgf] at h
          intro he
          exact h (by rw [he])
      have haf : a ≠ f := by
        rw [hgt] at h2
        intro he
        exact h2 (by rw [he])
      have hbt : b ≠ t := by
        rw [hgf] at h3
        intro he
        exact h3 (by rw [he])
      dsimp only
      rw [if_neg hab, if_neg haf, if_neg hbt, hc4]
      rfl
    | none =>
      have haf : a ≠ f := by
        rw [hgt] at h2
        intro he
        exact h2 (by rw [he])
      dsimp only
      rw [if_neg haf, hc4]
      rfl
  | none =>
    cases hgf : get_jump_target st.blocks f with
    | some b =>
      have hbt : b ≠ t := by
        rw [hgf] at h3
        intro he
        exact h3 (by rw [he])
      dsimp only
      rw [if_neg hbt, hc4]
      rfl
    | none =>
      dsimp only
      rw [hc4]
      rfl

/-- Witness for C5 at a concrete input: on `cfgC5`, where block 1 returns
the literal 4 through a Var link and block 2 returns it through a Cast
link, the scan rewrites the entry branch to a jump to the true label. -/
theorem C5_equal_const_returns_witness :
    processBlock ⟨cfgC5, false⟩ 0 =
      { blocks := setBlock cfgC5 0
          [Stmt.assign "x" (RVal.var "a"), Stmt.jump 1],
        changed := true } :=
  C5_equal_const_returns ⟨cfgC5, false⟩ 0
    [Stmt.assign "x" (RVal.var "a"), Stmt.branch "c" 1 2] "c" 1 2 (Lit.int 4)
    (by decide) (by decide) (Or.inl (by decide)) (by decide) (by decide)
    (by decide) (by decide)

/-- Counterexample to claim C6 as stated: the diamond pass is not
idempotent.  On `cfgTwoRuns` (external dead-code elimination instantiated
as the identity) the first run rewrites only block 1, which thereby
becomes a single-statement jump block; only the second run can then chase
both targets of block 0, so the second run changes the CFG again. -/
theorem C6_idempotent_counterexample :
    (DiamondPruningPass.run_pass id
        (DiamondPruningPass.run_pass id cfgTwoRuns).blocks).blocks ≠
      (DiamondPruningPass.run_pass id cfgTwoRuns).blocks := by decide

/-- Claim C6, amended: a second application of the diamond pass can change
the CFG further; the pass is idempotent exactly on the CFGs the scan
leaves unchanged — when the scan ends with the changed flag down, the pass
returns its input identically and a second application returns the same
outcome. -/
theorem C6_idempotent_amended (dce : CFG → CFG) (cfg : CFG)
    (h : (runScan cfg).changed = false) :
    DiamondPruningPass.run_pass dce cfg =
      { blocks := cfg, changed := false, retVal := true } ∧
    DiamondPruningPass.run_pass dce
        (DiamondPruningPass.run_pass dce cfg).blocks =
      DiamondPruningPass.run_pass dce cfg := by
  have hfix := runScan_fixed h
  have hout : DiamondPruningPass.run_pass dce cfg =
      { blocks := cfg, changed := false, retVal := true } := by
    simp [DiamondPruningPass.run_pass, hfix]
  constructor
  · exact hout
  · rw [hout]
    exact hout

/-- Witness for C6 at a concrete input: on a branch-free CFG the pass
reports no change and is a fixed point. -/
theorem C6_idempotent_amended_witness :
    DiamondPruningPass.run_pass id cfgNoBranch =
      { blocks := cfgNoBranch, changed := false, retVal := true } :=
  (C6_idempotent_amended id cfgNoBranch (by decide)).1

/-- Counterexample to claim C7 as stated: `run_pass` does not return a
flag indicating whether any branch was rewritten — on a CFG with no
branch it rewrites nothing and returns the CFG untouched with its internal
changed flag down, yet still returns true. -/
theorem C7_retval_counterexample :
    (DiamondPruningPass.run_pass id cfgNoBranch).retVal = true ∧
    (DiamondPruningPass.run_pass id cfgNoBranch).changed = false ∧
    (DiamondPruningPass.run_pass id cfgNoBranch).blocks = cfgNoBranch := by
  decide

/-- Claim C7, amended: `run_pass` returns true unconditionally; whether
any branch was rewritten is recorded by the internal changed flag, and the
dead-code-elimination utility is applied to the scanned blocks if and only
if that flag is up — when it is down the CFG is returned exactly as
given. -/
theorem C7_changed_flag_amended (dce : CFG → CFG) (cfg : CFG) :
    (DiamondPruningPass.run_pass dce cfg).retVal = true ∧
    (DiamondPruningPass.run_pass dce cfg).changed = (runScan cfg).changed ∧
    ((runScan cfg).changed = true →
      (DiamondPruningPass.run_pass dce cfg).blocks =
        dce (runScan cfg).blocks) ∧
    ((runScan cfg).changed = false →
      (DiamondPruningPass.run_pass dce cfg).blocks = cfg) := by
  refine ⟨rfl, rfl, ?_, ?_⟩
  · intro h
    simp [DiamondPruningPass.run_pass, h]
  · intro h
    have hfix := runScan_fixed h
    simp [DiamondPruningPass.run_pass, hfix]

/-- Witness for C7 at a concrete input: on `cfgTwoRuns` the scan changes
something, so dead-code elimination is applied to the scanned blocks, and
the returned value is still just true. -/
theorem C7_changed_flag_amended_witness :
    (DiamondPruningPass.run_pass id cfgTwoRuns).retVal = true ∧
    (DiamondPruningPass.run_pass id cfgTwoRuns).blocks =
      id (runScan cfgTwoRuns).blocks :=
  ⟨(C7_changed_flag_amended id cfgTwoRuns).1,
   (C7_changed_flag_amended id cfgTwoRuns).2.2.1 (by decide)⟩

/-- Claim C8: the forced-inlining pass returns true unconditionally for
every input; when no call site of the CFG resolves to an inlinable
callee, the work-list loop leaves every block untouched (only the final
dead-code elimination of the host runs); and a call the pass does inline
resolves through one of exactly three definition forms — a direct
global/free-variable reference, an attribute access off a
global/free-variable object, or a function literal. -/
theorem C8_unresolved_untouched :
    (∀ (defs : Defs) (dce : CFG → CFG)
        (inliner : CFG → Nat → Nat → CFG × List Nat) (fuel : Nat)
        (cfg : CFG),
      (InlineAllCallsPass.run_pass defs dce inliner fuel cfg).2 = true) ∧
    (∀ (defs : Defs) (dce : CFG → CFG)
        (inliner : CFG → Nat → Nat → CFG × List Nat) (fuel : Nat)
        (cfg : CFG),
      (∀ l blk, cfg.lookup l = some blk →
        findInlinableIdx defs blk = Option.none) →
      (InlineAllCallsPass.run_pass defs dce inliner fuel cfg).1 = dce cfg) ∧
    (∀ (defs : Defs) (funcVar : String),
      implWouldInline defs funcVar = true →
      (∃ o, defs funcVar = some (FuncDef.globalF o)) ∨
      (∃ o, defs funcVar = some (FuncDef.freevarF o)) ∨
      (∃ a b, defs funcVar = some (FuncDef.getattrF a b)) ∨
      defs funcVar = some FuncDef.makeFunctionF) := by
  refine ⟨fun _ _ _ _ _ => rfl, ?_, ?_⟩
  · intro defs dce inliner fuel cfg hno
    unfold InlineAllCallsPass.run_pass
    rw [inlineLoop_no_resolve defs inliner cfg hno fuel
      (cfg.map Prod.fst).reverse]
  · intro defs funcVar h
    unfold implWouldInline at h
    cases hd : defs funcVar with
    | none => rw [hd] at h; simp at h
    | some fd =>
      cases fd with
      | globalF o => exact Or.inl ⟨o, rfl⟩
      | freevarF o => exact Or.inr (Or.inl ⟨o, rfl⟩)
      | getattrF a b => exact Or.inr (Or.inr (Or.inl ⟨a, b, rfl⟩))
      | makeFunctionF => exact Or.inr (Or.inr (Or.inr rfl))
      | otherF => rw [hd] at h; simp at h

/-- Witness for C8 at a concrete input: a CFG whose single call site does
not resolve passes through the inlining pass untouched, with result
true. -/
theorem C8_unresolved_untouched_witness :
    (InlineAllCallsPass.run_pass defsEmpty id inlinerId 3 cfgCall).1 =
      cfgCall ∧
    (InlineAllCallsPass.run_pass defsEmpty id inlinerId 3 cfgCall).2 =
      true :=
  ⟨C8_unresolved_untouched.2.1 defsEmpty id inlinerId 3 cfgCall
    (by
      intro l blk hlk
      simp only [cfgCall, List.lookup] at hlk
      split at hlk
      · cases hlk
        decide
      · exact absurd hlk (by simp)),
   C8_unresolved_untouched.1 defsEmpty id inlinerId 3 cfgCall⟩

/-- Counterexample to claim C9 as stated: branches are not the only
statement kind whose logging call is placed immediately before the
statement — a return is also logged before itself, not after. -/
theorem C9_placement_counterexample :
    instrumentStmt defsEmpty (Stmt.ret (RVal.var "x")) =
      [Stmt.logCall "return", Stmt.ret (RVal.var "x")] ∧
    instrumentStmt defsEmpty (Stmt.ret (RVal.var "x")) ≠
      [Stmt.ret (RVal.var "x"), Stmt.logCall "return"] :=
  ⟨rfl, by decide⟩

/-- Claim C9, amended: the logging call for each listed assignment kind is
placed immediately after the statement it records; two-way branches and
returns are the two statement kinds whose logging call is placed
immediately before the statement; every other statement passes through
with no logging call. -/
theorem C9_placement_amended (defs : Defs) :
    (∀ t fn l r,
      instrumentStmt defs (Stmt.assign t (RVal.expr (IRExpr.binop fn l r))) =
        [Stmt.assign t (RVal.expr (IRExpr.binop fn l r)), Stmt.logCall fn]) ∧
    (∀ t fn l r,
      instrumentStmt defs
          (Stmt.assign t (RVal.expr (IRExpr.inplace_binop fn l r))) =
        [Stmt.assign t (RVal.expr (IRExpr.inplace_binop fn l r)),
         Stmt.logCall fn]) ∧
    (∀ t nv,
      instrumentStmt defs (Stmt.assign t (RVal.expr (IRExpr.cast nv))) =
        [Stmt.assign t (RVal.expr (IRExpr.cast nv)), Stmt.logCall "cast"]) ∧
    (∀ t n,
      instrumentStmt defs (Stmt.assign t (RVal.var n)) =
        [Stmt.assign t (RVal.var n), Stmt.logCall "assign"]) ∧
    (∀ t v,
      instrumentStmt defs (Stmt.assign t (RVal.const v)) =
        [Stmt.assign t (RVal.const v), Stmt.logCall "assign"]) ∧
    (∀ c a b,
      instrumentStmt defs (Stmt.branch c a b) =
        [Stmt.logCall "branch", Stmt.branch c a b]) ∧
    (∀ v,
      instrumentStmt defs (Stmt.ret v) =
        [Stmt.logCall "return", Stmt.ret v]) ∧
    (∀ t fv args,
      instrumentStmt defs (Stmt.assign t (RVal.expr (IRExpr.call fv args))) =
        [Stmt.assign t (RVal.expr (IRExpr.call fv args)),
         Stmt.logCall (callOpName defs fv)]) ∧
    (∀ t ov a,
      instrumentStmt defs
          (Stmt.assign t (RVal.expr (IRExpr.getattrE ov a))) =
        [Stmt.assign t (RVal.expr (IRExpr.getattrE ov a)),
         Stmt.logCall "getattr"]) ∧
    (∀ t,
      instrumentStmt defs (Stmt.assign t (RVal.expr IRExpr.make_function)) =
        [Stmt.assign t (RVal.expr IRExpr.make_function),
         Stmt.logCall "make_function"]) ∧
    (∀ t op ov,
      instrumentStmt defs (Stmt.assign t (RVal.expr (IRExpr.otherE op ov))) =
        [Stmt.assign t (RVal.expr (IRExpr.otherE op ov)),
         Stmt.logCall op]) ∧
    (∀ t n,
      instrumentStmt defs (Stmt.assign t (RVal.globalRef n)) =
        [Stmt.assign t (RVal.globalRef n)]) ∧
    (∀ t n,
      instrumentStmt defs (Stmt.assign t (RVal.freevarRef n)) =
        [Stmt.assign t (RVal.freevarRef n)]) ∧
    (∀ t,
      instrumentStmt defs (Stmt.assign t RVal.otherVal) =
        [Stmt.assign t RVal.otherVal]) ∧
    (∀ a, instrumentStmt defs (Stmt.jump a) = [Stmt.jump a]) ∧
    instrumentStmt defs Stmt.other = [Stmt.other] ∧
    (∀ op, instrumentStmt defs (Stmt.logCall op) = [Stmt.logCall op]) :=
  ⟨fun _ _ _ _ => rfl, fun _ _ _ _ => rfl, fun _ _ => rfl, fun _ _ => rfl,
   fun _ _ => rfl, fun _ _ _ => rfl, fun _ => rfl, fun _ _ _ => rfl,
   fun _ _ _ => rfl, fun _ => rfl, fun _ _ _ => rfl, fun _ _ => rfl,
   fun _ _ => rfl, fun _ => rfl, fun _ => rfl, rfl, fun _ => rfl⟩

/-- Witness for C9 at a concrete input: a branch is logged before itself,
a binary operation after itself. -/
theorem C9_placement_amended_witness :
    instrumentStmt defsEmpty (Stmt.branch "c" 1 2) =
      [Stmt.logCall "branch", Stmt.branch "c" 1 2] ∧
    instrumentStmt defsEmpty
        (Stmt.assign "z" (RVal.expr (IRExpr.binop "add" "x" "y"))) =
      [Stmt.assign "z" (RVal.expr (IRExpr.binop "add" "x" "y")),
       Stmt.logCall "add"] :=
  ⟨(C9_placement_amended defsEmpty).2.2.2.2.2.1 "c" 1 2,
   (C9_placement_amended defsEmpty).1 "z" "add" "x" "y"⟩

/-- Counterexample to claim C10 as stated: a branch-free, return-free
event list does not always reconstruct to nothing — a binary-operator
event with fewer than two inputs makes `Trace.to_ir` index past the end
of its input list (an IndexError in the source). -/
theorem C10_no_nodes_counterexample :
    to_ir [⟨"gt", "y", Lit.pyNone, [("x", Lit.int 1)], 0⟩] =
      .error "IndexError" := rfl

/-- Claim C10, amended: every non-empty event list with no branch event
and no return event, whose binary-operator events carry at least two
inputs, reconstructs to no tree — so the empty list is not the only input
yielding none. -/
theorem C10_no_nodes_amended (events : List TraceEvent)
    (_hne : events ≠ [])
    (h : ∀ e ∈ events, e.op ≠ "branch" ∧ e.op ≠ "return" ∧
      ((BINARY_OPS.lookup e.op).isSome → 2 ≤ e.inputs.length)) :
    to_ir events = .ok Option.none := by
  obtain ⟨s2, hs2, hn⟩ := runEvents_no_nodes events h ⟨[], []⟩
  unfold to_ir
  rw [hs2]
  dsimp only
  rw [hn]
  rfl

/-- Witness for C10 at a concrete input: a lone assignment event yields no
tree. -/
theorem C10_no_nodes_amended_witness :
    to_ir [⟨"assign", "a", Lit.int 1, [("b", Lit.int 1)], 0⟩] =
      .ok Option.none :=
  C10_no_nodes_amended [⟨"assign", "a", Lit.int 1, [("b", Lit.int 1)], 0⟩]
    (by decide) (by decide)

end TracyMc
